import Mathlib

/-!
Verification of `diffstack/utils/torch_utils.py`.

Shallow embedding conventions:
* A parameter tensor is modelled as a flat list of exact rationals
  (`Tensor := List ℚ`); a network is its ordered list of parameter
  tensors (`Net := List Tensor`), matching iteration over
  `module.parameters()`.
* Python `zip` truncates to the shorter argument; parameters of the
  target network beyond the zipped prefix are untouched, which the
  embedding renders by appending `target.drop source.length`.
* Real-valued operations that use transcendental functions
  (`reparameterize`, gradient norms) are modelled over `ℝ`.
* Side effects (CUDA synchronisation, printing, optimizer stepping)
  are modelled as explicit event traces.
-/

namespace TorchUtils

abbrev Tensor := List ℚ

abbrev Net := List Tensor

/-- One step of the in-place update
`target_param.copy_(target_param * (1.0 - tau) + param * tau)`:
the element-wise blend of a target parameter with a source parameter. -/
def blendParam (target_param param : Tensor) (tau : ℚ) : Tensor :=
  List.zipWith (fun t s => t * (1 - tau) + s * tau) target_param param

/-- `soft_update(source, target, tau)`: for every pair produced by
`zip(target.parameters(), source.parameters())` the target parameter is
overwritten with the blend; target parameters beyond the zipped prefix
keep their values. -/
def soft_update (source target : Net) (tau : ℚ) : Net :=
  ((target.zip source).map fun q => blendParam q.1 q.2 tau)
    ++ target.drop source.length

/-- One step of `target_param.copy_(param)`: under the same-shape
precondition of the synchroniser the target parameter becomes the
source parameter. -/
def copyParam (target_param param : Tensor) : Tensor :=
  param

/-- `hard_update(source, target)`: every zipped target parameter is
overwritten by the positionally corresponding source parameter; target
parameters beyond the zipped prefix keep their values. -/
def hard_update (source target : Net) : Net :=
  ((target.zip source).map fun q => copyParam q.1 q.2)
    ++ target.drop source.length

lemma soft_update_nil_target (source : Net) (tau : ℚ) :
    soft_update source [] tau = [] := by
  simp [soft_update]

lemma soft_update_nil_source (target : Net) (tau : ℚ) :
    soft_update [] target tau = target := by
  simp [soft_update]

lemma soft_update_cons (p tp : Tensor) (source target : Net) (tau : ℚ) :
    soft_update (p :: source) (tp :: target) tau =
      blendParam tp p tau :: soft_update source target tau := by
  simp [soft_update]

lemma hard_update_nil_target (source : Net) :
    hard_update source [] = [] := by
  simp [hard_update]

lemma hard_update_nil_source (target : Net) :
    hard_update [] target = target := by
  simp [hard_update]

lemma hard_update_cons (p tp : Tensor) (source target : Net) :
    hard_update (p :: source) (tp :: target) =
      copyParam tp p :: hard_update source target := by
  simp [hard_update]

lemma blendParam_zero (tp p : Tensor) (h : tp.length = p.length) :
    blendParam tp p 0 = tp := by
  induction tp generalizing p with
  | nil => simp [blendParam]
  | cons a as ih =>
    cases p with
    | nil => simp at h
    | cons b bs =>
      simp only [List.length_cons, Nat.succ_inj] at h
      simp [blendParam, List.zipWith] at ih ⊢
      exact ih bs h

lemma blendParam_one (tp p : Tensor) (h : tp.length = p.length) :
    blendParam tp p 1 = p := by
  induction tp generalizing p with
  | nil =>
    cases p with
    | nil => simp [blendParam]
    | cons b bs => simp at h
  | cons a as ih =>
    cases p with
    | nil => simp at h
    | cons b bs =>
      simp only [List.length_cons, Nat.succ_inj] at h
      simp [blendParam, List.zipWith] at ih ⊢
      exact ih bs h

lemma hard_update_eq_source (source target : Net)
    (hlen : target.length = source.length) :
    hard_update source target = source := by
  induction target generalizing source with
  | nil =>
    cases source with
    | nil => simp [hard_update]
    | cons p ps => simp at hlen
  | cons tp tps ih =>
    cases source with
    | nil => simp at hlen
    | cons p ps =>
      simp only [List.length_cons, Nat.succ_inj] at hlen
      rw [hard_update_cons]
      rw [ih ps hlen]
      rfl

lemma soft_update_zero (source target : Net)
    (hshape : ∀ q ∈ target.zip source, q.1.length = q.2.length) :
    soft_update source target 0 = target := by
  induction target generalizing source with
  | nil => exact soft_update_nil_target source 0
  | cons tp tps ih =>
    cases source with
    | nil => exact soft_update_nil_source (tp :: tps) 0
    | cons p ps =>
      rw [soft_update_cons]
      have hhead : tp.length = p.length := by
        exact hshape (tp, p) (by simp)
      have htail : ∀ q ∈ tps.zip ps, q.1.length = q.2.length := by
        intro q hq
        exact hshape q (by simp [hq])
      rw [blendParam_zero tp p hhead, ih ps htail]

lemma soft_update_one (source target : Net)
    (hshape : ∀ q ∈ target.zip source, q.1.length = q.2.length) :
    soft_update source target 1 = hard_update source target := by
  induction target generalizing source with
  | nil => simp [soft_update, hard_update]
  | cons tp tps ih =>
    cases source with
    | nil => simp [soft_update, hard_update]
    | cons p ps =>
      rw [soft_update_cons, hard_update_cons]
      have hhead : tp.length = p.length := by
        exact hshape (tp, p) (by simp)
      have htail : ∀ q ∈ tps.zip ps, q.1.length = q.2.length := by
        intro q hq
        exact hshape q (by simp [hq])
      rw [blendParam_one tp p hhead, ih ps htail]
      rfl

lemma update_shape_length (f : Tensor → Tensor → Tensor) (source target : Net) :
    (((target.zip source).map fun q => f q.1 q.2) ++ target.drop source.length).length
      = target.length := by
  simp only [List.length_append, List.length_map, List.length_zip, List.length_drop]
  omega

lemma update_shape_take (f : Tensor → Tensor → Tensor) (source target : Net) :
    (((target.zip source).map fun q => f q.1 q.2) ++ target.drop source.length).take
        (min source.length target.length)
      = (target.zip source).map fun q => f q.1 q.2 := by
  apply List.take_left'
  simp [Nat.min_comm]

lemma update_shape_drop (f : Tensor → Tensor → Tensor) (source target : Net) :
    (((target.zip source).map fun q => f q.1 q.2) ++ target.drop source.length).drop
        (min source.length target.length)
      = target.drop (min source.length target.length) := by
  have h1 : (((target.zip source).map fun q => f q.1 q.2)
      ++ target.drop source.length).drop (min source.length target.length)
      = target.drop source.length := by
    apply List.drop_left'
    simp [Nat.min_comm]
  rw [h1]
  rcases Nat.le_total source.length target.length with hle | hle
  · rw [Nat.min_eq_left hle]
  · rw [Nat.min_eq_right hle]
    rw [List.drop_eq_nil_of_le hle, List.drop_eq_nil_of_le le_rfl]

/-- C1: for two networks exposing parameter tensors in identical order and
shape, `hard_update(source, target)` makes every parameter tensor of the
target equal to the positionally corresponding source parameter tensor,
i.e. the target's parameter list becomes exactly the source's. -/
theorem hard_update_copies_all_params (source target : Net)
    (hcount : target.length = source.length)
    (hshape : ∀ q ∈ target.zip source, q.1.length = q.2.length) :
    hard_update source target = source :=
  hard_update_eq_source source target hcount

theorem hard_update_copies_all_params_witness :
    (([[0, 0], [0]] : Net).length = ([[1, 2], [3]] : Net).length)
      ∧ (∀ q ∈ ([[0, 0], [0]] : Net).zip ([[1, 2], [3]] : Net),
          q.1.length = q.2.length)
      ∧ hard_update [[1, 2], [3]] [[0, 0], [0]] = [[1, 2], [3]] :=
  ⟨by decide, by decide,
    hard_update_copies_all_params [[1, 2], [3]] [[0, 0], [0]]
      (by decide) (by decide)⟩

/-- C2: for networks with positionally matched (same-shape) parameters,
`soft_update(source, target, 0)` leaves every target parameter unchanged,
and `soft_update(source, target, 1)` produces exactly what
`hard_update(source, target)` produces. -/
theorem soft_update_tau_zero_one (source target : Net)
    (hshape : ∀ q ∈ target.zip source, q.1.length = q.2.length) :
    soft_update source target 0 = target
      ∧ soft_update source target 1 = hard_update source target :=
  ⟨soft_update_zero source target hshape,
    soft_update_one source target hshape⟩

theorem soft_update_tau_zero_one_witness :
    (∀ q ∈ ([[5, 6], [7]] : Net).zip ([[1, 2], [3]] : Net),
        q.1.length = q.2.length)
      ∧ (soft_update [[1, 2], [3]] [[5, 6], [7]] 0 = [[5, 6], [7]]
        ∧ soft_update [[1, 2], [3]] [[5, 6], [7]] 1
            = hard_update [[1, 2], [3]] [[5, 6], [7]]) :=
  ⟨by decide,
    soft_update_tau_zero_one [[1, 2], [3]] [[5, 6], [7]] (by decide)⟩

/-- C9: when the two networks expose differing numbers of parameter
tensors, `soft_update` and `hard_update` update only the positionally
paired prefix of length `min (count source) (count target)`; every target
parameter beyond that prefix is unchanged, the parameter count of the
target is preserved, and both functions are total (no error is raised). -/
theorem update_mismatched_counts_frame (source target : Net) (tau : ℚ) :
    (soft_update source target tau).length = target.length
      ∧ (soft_update source target tau).take (min source.length target.length)
          = ((target.zip source).map fun q => blendParam q.1 q.2 tau)
      ∧ (soft_update source target tau).drop (min source.length target.length)
          = target.drop (min source.length target.length)
      ∧ (hard_update source target).length = target.length
      ∧ (hard_update source target).take (min source.length target.length)
          = ((target.zip source).map fun q => copyParam q.1 q.2)
      ∧ (hard_update source target).drop (min source.length target.length)
          = target.drop (min source.length target.length) :=
  ⟨update_shape_length (fun tp p => blendParam tp p tau) source target,
    update_shape_take (fun tp p => blendParam tp p tau) source target,
    update_shape_drop (fun tp p => blendParam tp p tau) source target,
    update_shape_length copyParam source target,
    update_shape_take copyParam source target,
    update_shape_drop copyParam source target⟩

/-- `reparameterize(mu, logvar)` with the random draw made explicit:
`eps` stands for the sample `std.new(std.size()).normal_()`.  The body
follows the source: `logstd = (0.5 * logvar).clamp(-4, 15)`,
`std = torch.exp(logstd)`, `z = eps.mul(std).add_(mu)`; torch's
`clamp(lo, hi)` is `min (max x lo) hi`. -/
noncomputable def reparameterize (mu logvar eps : List ℝ) : List ℝ :=
  let logstd := logvar.map fun v => min (max (0.5 * v) (-4)) 15
  let std := logstd.map Real.exp
  List.zipWith (· + ·) (List.zipWith (· * ·) eps std) mu

lemma zipWith_zero_eps (std mu : List ℝ) (h : mu.length = std.length) :
    List.zipWith (· + ·)
      (List.zipWith (· * ·) (List.replicate std.length 0) std) mu = mu := by
  induction std generalizing mu with
  | nil =>
    cases mu with
    | nil => simp
    | cons m ms => exact absurd h (by simp)
  | cons s ss ih =>
    cases mu with
    | nil => exact absurd h (by simp)
    | cons m ms =>
      simp only [List.length_cons, Nat.succ_inj] at h
      simp only [List.length_cons, List.replicate_succ, List.zipWith_cons_cons,
        zero_mul, zero_add]
      rw [ih ms h]

/-- C3: `reparameterize(mu, logvar)` computes
`logstd = clamp(0.5*logvar, -4, 15)`, `std = exp(logstd)` and returns
`eps*std + mu` where `eps` is the standard-normal draw shaped like
`std`; when the draw is fixed to zero the result is exactly `mu`. -/
theorem reparameterize_spec (mu logvar : List ℝ)
    (h : mu.length = logvar.length) :
    (∀ eps : List ℝ,
        reparameterize mu logvar eps
          = List.zipWith (· + ·)
              (List.zipWith (· * ·) eps
                (logvar.map fun v => Real.exp (min (max (0.5 * v) (-4)) 15)))
              mu)
      ∧ reparameterize mu logvar (List.replicate logvar.length 0) = mu := by
  constructor
  · intro eps
    simp [reparameterize, List.map_map, Function.comp_def]
  · have hstd : mu.length
        = ((logvar.map fun v => min (max (0.5 * v) (-4)) 15).map Real.exp).length := by
      simp [h]
    have hz := zipWith_zero_eps
      ((logvar.map fun v => min (max (0.5 * v) (-4)) 15).map Real.exp) mu hstd
    simpa [reparameterize] using hz

theorem reparameterize_spec_witness :
    (([1, 2] : List ℝ).length = ([0, 0] : List ℝ).length)
      ∧ ((∀ eps : List ℝ,
          reparameterize [1, 2] [0, 0] eps
            = List.zipWith (· + ·)
                (List.zipWith (· * ·) eps
                  (([0, 0] : List ℝ).map fun v =>
                    Real.exp (min (max (0.5 * v) (-4)) 15)))
                [1, 2])
        ∧ reparameterize [1, 2] [0, 0]
            (List.replicate ([0, 0] : List ℝ).length 0) = [1, 2]) :=
  ⟨rfl, reparameterize_spec [1, 2] [0, 0] rfl⟩

/-- The side-effecting torch calls issued by `backprop_for_loss`, in
the order they happen. -/
inductive TorchEv where
  | zeroGrad : TorchEv
  | backwardLoss (retain_graph : Bool) : TorchEv
  | clipGradNorm (max_norm : ℝ) : TorchEv
  | optimStep : TorchEv

/-- Sum of squared entries of a gradient tensor; `g.norm(2)` is
`Real.sqrt (sumSq g)`. -/
def sumSq (g : List ℝ) : ℝ :=
  (g.map fun x => x ^ 2).sum

/-- Model of the external `torch.nn.utils.clip_grad_norm_` with the
default 2-norm: the total norm is the 2-norm of the per-parameter
2-norms over parameters that have a gradient; every gradient is scaled
by `max_norm / (total_norm + 1e-6)` when that coefficient is below 1. -/
noncomputable def clip_grad_norm (grads : List (Option (List ℝ)))
    (max_norm : ℝ) : List (Option (List ℝ)) :=
  let total_norm := Real.sqrt (((grads.filterMap id).map fun g => sumSq g).sum)
  let clip_coef := max_norm / (total_norm + 1e-6)
  if clip_coef < 1 then
    grads.map fun og => og.map fun g => g.map fun x => x * clip_coef
  else grads

/-- `backprop_for_loss(net, optim, loss, max_grad_norm, retain_graph)`.
The gradients deposited by `loss.backward()` are the explicit input
`lossGrads`, one optional gradient tensor per parameter of `net`
(`none` models `p.grad is None`); `optim.zero_grad()` clears any stale
gradients first, so after `backward` the gradient state is exactly
`lossGrads`.  The result carries the trace of side-effecting calls, the
final gradient state, and the returned `grad_norms` accumulated as
`p.grad.data.norm(2).pow(2)` over parameters whose gradient is present. -/
noncomputable def backprop_for_loss (lossGrads : List (Option (List ℝ)))
    (max_grad_norm : Option ℝ) (retain_graph : Bool) :
    List TorchEv × List (Option (List ℝ)) × ℝ :=
  let cl := match max_grad_norm with
    | some m => ([TorchEv.clipGradNorm m], clip_grad_norm lossGrads m)
    | none => ([], lossGrads)
  let grad_norms := ((cl.2.filterMap id).map fun g => Real.sqrt (sumSq g) ^ 2).sum
  ([TorchEv.zeroGrad, TorchEv.backwardLoss retain_graph] ++ cl.1
      ++ [TorchEv.optimStep],
    cl.2, grad_norms)

lemma sumSq_nonneg (g : List ℝ) : 0 ≤ sumSq g := by
  apply List.sum_nonneg
  intro x hx
  rcases List.mem_map.mp hx with ⟨y, _, rfl⟩
  positivity

lemma sqrt_sumSq_sq (gs : List (List ℝ)) :
    (gs.map fun g => Real.sqrt (sumSq g) ^ 2) = gs.map sumSq := by
  apply List.map_congr_left
  intro g _
  exact Real.sq_sqrt (sumSq_nonneg g)

/-- C4: `backprop_for_loss` issues, in order, `zero_grad`, `backward`
(with the given `retain_graph`), gradient clipping exactly when
`max_grad_norm` is provided, and finally the optimizer step; its return
value is the sum over parameters with a present gradient of the squared
per-parameter 2-norm of the (possibly clipped) gradient — a sum of
squared norms, not a true global norm. -/
theorem backprop_for_loss_spec (lossGrads : List (Option (List ℝ)))
    (max_grad_norm : Option ℝ) (retain_graph : Bool) :
    (backprop_for_loss lossGrads max_grad_norm retain_graph).1
        = [TorchEv.zeroGrad, TorchEv.backwardLoss retain_graph]
            ++ (match max_grad_norm with
                | some m => [TorchEv.clipGradNorm m]
                | none => [])
            ++ [TorchEv.optimStep]
      ∧ (backprop_for_loss lossGrads max_grad_norm retain_graph).2.1
          = (match max_grad_norm with
              | some m => clip_grad_norm lossGrads m
              | none => lossGrads)
      ∧ (backprop_for_loss lossGrads max_grad_norm retain_graph).2.2
          = (((backprop_for_loss lossGrads max_grad_norm retain_graph).2.1.filterMap
                id).map sumSq).sum := by
  cases max_grad_norm with
  | none =>
    refine ⟨rfl, rfl, ?_⟩
    show ((lossGrads.filterMap id).map fun g => Real.sqrt (sumSq g) ^ 2).sum
        = ((lossGrads.filterMap id).map sumSq).sum
    rw [sqrt_sumSq_sq]
  | some m =>
    refine ⟨rfl, rfl, ?_⟩
    show (((clip_grad_norm lossGrads m).filterMap id).map
          fun g => Real.sqrt (sumSq g) ^ 2).sum
        = (((clip_grad_norm lossGrads m).filterMap id).map sumSq).sum
    rw [sqrt_sumSq_sq]

/-- The `learning_rate` section of a network's optim-params config. -/
structure LearningRate where
  initial : ℚ
  epoch_schedule : List ℕ
  decay_factor : ℚ

/-- The optim-params config section read by the factory helpers. -/
structure OptimParams where
  learning_rate : LearningRate
  regularization_L2 : ℚ

/-- The scheduler object built by `optim.lr_scheduler.MultiStepLR`:
its decay milestones and its decay factor `gamma`. -/
structure MultiStepLR where
  milestones : List ℕ
  gamma : ℚ

/-- `lr_scheduler_from_optim_params`: starts with `lr_scheduler = None`
and replaces it with a `MultiStepLR` only when
`learning_rate.epoch_schedule` has positive length. -/
def lr_scheduler_from_optim_params (net_optim_params : OptimParams) :
    Option MultiStepLR :=
  if 0 < net_optim_params.learning_rate.epoch_schedule.length then
    some { milestones := net_optim_params.learning_rate.epoch_schedule,
           gamma := net_optim_params.learning_rate.decay_factor }
  else
    none

/-- C5: `lr_scheduler_from_optim_params` returns `None` exactly when
`learning_rate.epoch_schedule` is empty; on a non-empty schedule it
returns a multi-step scheduler whose milestones are that schedule and
whose decay factor is `learning_rate.decay_factor`. -/
theorem lr_scheduler_spec (p : OptimParams) :
    (lr_scheduler_from_optim_params p = none
        ↔ p.learning_rate.epoch_schedule = [])
      ∧ (p.learning_rate.epoch_schedule ≠ [] →
          lr_scheduler_from_optim_params p
            = some { milestones := p.learning_rate.epoch_schedule,
                     gamma := p.learning_rate.decay_factor }) := by
  constructor
  · unfold lr_scheduler_from_optim_params
    cases hs : p.learning_rate.epoch_schedule with
    | nil => simp [hs]
    | cons a as => simp [hs]
  · intro hne
    unfold lr_scheduler_from_optim_params
    cases hs : p.learning_rate.epoch_schedule with
    | nil => exact absurd hs hne
    | cons a as => simp [hs]

theorem lr_scheduler_spec_witness :
    (OptimParams.mk (LearningRate.mk 1 [10, 20] (1 / 2)) 0).learning_rate.epoch_schedule
        ≠ []
      ∧ lr_scheduler_from_optim_params
          (OptimParams.mk (LearningRate.mk 1 [10, 20] (1 / 2)) 0)
          = some { milestones := [10, 20], gamma := 1 / 2 } :=
  ⟨by decide,
    (lr_scheduler_spec (OptimParams.mk (LearningRate.mk 1 [10, 20] (1 / 2)) 0)).2
      (by decide)⟩

/-- Structural rendering of Python's `str.split(sep)` for a one-character
separator. -/
def splitOnChar (sep : Char) : List Char → List (List Char)
  | [] => [[]]
  | c :: rest =>
    let r := splitOnChar sep rest
    if c = sep then [] :: r
    else
      match r with
      | [] => [[c]]
      | s :: ss => (c :: s) :: ss

/-- `attr.split(".")`. -/
def splitDot (attr : String) : List String :=
  (splitOnChar '.' attr.toList).map fun cs => String.mk cs

/-- `attr.rpartition(".")` reduced to the pair (head, tail): everything
before the last dot (empty when there is no dot) and everything after
it (the whole string when there is no dot). -/
def rpartitionDot (attr : String) : String × String :=
  match (splitDot attr).reverse with
  | [] => ("", attr)
  | [_] => ("", attr)
  | post :: preRev => (String.intercalate "." preRev.reverse, post)

/-- A Python object as seen by the reflection helpers: an integer
payload to tell objects apart and a finite attribute dictionary. -/
inductive PyObj where
  | obj (payload : ℤ) (fields : List (String × PyObj))

/-- The attribute dictionary of an object. -/
def PyObj.fields : PyObj → List (String × PyObj)
  | .obj _ fs => fs

/-- The payload of an object. -/
def PyObj.payload : PyObj → ℤ
  | .obj n _ => n

/-- First-match lookup in an attribute dictionary. -/
def lookupField : List (String × PyObj) → String → Option PyObj
  | [], _ => none
  | (k, w) :: rest, a => if k = a then some w else lookupField rest a

/-- `getattr(o, a)` without a default; `none` models `AttributeError`. -/
def getattrOpt (o : PyObj) (a : String) : Option PyObj :=
  lookupField o.fields a

/-- `getattr(o, a, d)`: the default is returned when the attribute is
absent. -/
def getattrD (o : PyObj) (a : String) (d : PyObj) : PyObj :=
  (getattrOpt o a).getD d

/-- `setattr(o, a, v)` as a functional update on the attribute
dictionary: the first binding of `a` is replaced, or a new binding is
appended. -/
def setField : List (String × PyObj) → String → PyObj → List (String × PyObj)
  | [], a, v => [(a, v)]
  | (k, w) :: rest, a, v =>
    if k = a then (a, v) :: rest else (k, w) :: setField rest a v

/-- `setattr` at the object level. -/
def setattrF (o : PyObj) (a : String) (v : PyObj) : PyObj :=
  .obj o.payload (setField o.fields a v)

/-- `functools.reduce(_getattr, [obj] + attr.split("."))` with
`_getattr = getattr` (no default): the possible `AttributeError` is
threaded through `Option`. -/
def rgetattrSegs (acc : Option PyObj) (segs : List String) : Option PyObj :=
  segs.foldl (fun acc a => acc.bind fun x => getattrOpt x a) acc

/-- `rgetattr(obj, attr)` without a default. -/
def rgetattr (o : PyObj) (attr : String) : Option PyObj :=
  rgetattrSegs (some o) (splitDot attr)

/-- `rgetattr(obj, attr, d)`: every single-level step is
`getattr(acc, a, d)`, so a failed step substitutes `d` and the fold
continues from `d`. -/
def rgetattrD (o : PyObj) (attr : String) (d : PyObj) : PyObj :=
  (splitDot attr).foldl (fun acc a => getattrD acc a d) o

/-- Functional rendering of
`setattr(rgetattr(obj, pre), post, val)`: navigate the `pre` segments
(failing like `rgetattr` without a default does) and rebuild the object
along the path with the `post` attribute set. -/
def updateAtSegs (o : PyObj) (segs : List String) (post : String)
    (v : PyObj) : Option PyObj :=
  match segs with
  | [] => some (setattrF o post v)
  | a :: rest =>
    match getattrOpt o a with
    | none => none
    | some child => (updateAtSegs child rest post v).map fun c => setattrF o a c

/-- `rsetattr(obj, attr, val)`: `pre, _, post = attr.rpartition(".")`;
set `post` on `rgetattr(obj, pre)` when `pre` is non-empty, on `obj`
itself otherwise.  `none` models the propagated `AttributeError`. -/
def rsetattr (o : PyObj) (attr : String) (v : PyObj) : Option PyObj :=
  let pr := rpartitionDot attr
  if pr.1 = "" then some (setattrF o pr.2 v)
  else updateAtSegs o (splitDot pr.1) pr.2 v

lemma lookupField_setField (fs : List (String × PyObj)) (a : String)
    (v : PyObj) : lookupField (setField fs a v) a = some v := by
  induction fs with
  | nil => simp [setField, lookupField]
  | cons kv rest ih =>
    by_cases hk : kv.1 = a
    · simp [setField, lookupField, hk]
    · simp [setField, lookupField, hk, ih]

lemma getattrOpt_setattrF (o : PyObj) (a : String) (v : PyObj) :
    getattrOpt (setattrF o a v) a = some v := by
  cases o with
  | obj n fs => simp [getattrOpt, setattrF, PyObj.fields, lookupField_setField]

lemma rgetattrSegs_cons (acc : Option PyObj) (a : String)
    (rest : List String) :
    rgetattrSegs acc (a :: rest)
      = rgetattrSegs (acc.bind fun x => getattrOpt x a) rest := rfl

lemma updateAtSegs_rgetattr (segs : List String) :
    ∀ (o o' : PyObj) (post : String) (v : PyObj),
      updateAtSegs o segs post v = some o' →
      rgetattrSegs (some o') (segs ++ [post]) = some v := by
  induction segs with
  | nil =>
    intro o o' post v h
    simp only [updateAtSegs, Option.some_inj] at h
    subst h
    simp [rgetattrSegs, getattrOpt_setattrF]
  | cons a rest ih =>
    intro o o' post v h
    cases hga : getattrOpt o a with
    | none => simp [updateAtSegs, hga] at h
    | some child =>
      simp only [updateAtSegs, hga] at h
      cases hup : updateAtSegs child rest post v with
      | none => simp [hup] at h
      | some c =>
        rw [hup] at h
        simp only [Option.map_some', Option.some_inj] at h
        subst h
        have hstep : rgetattrSegs (some (setattrF o a c)) (a :: (rest ++ [post]))
            = rgetattrSegs (some c) (rest ++ [post]) := by
          rw [rgetattrSegs_cons]
          simp [getattrOpt_setattrF]
        rw [List.cons_append, hstep]
        exact ih child c post v hup

/-- C6: on the dotted path `"a.b.c"`, `rgetattr` is the chain of
single-level `getattr` steps `obj.a.b.c`, and a successful
`rsetattr(obj, "a.b.c", v)` followed by `rgetattr(obj, "a.b.c")`
returns `v`. -/
theorem rgetattr_rsetattr_path (o v o' : PyObj)
    (h : rsetattr o "a.b.c" v = some o') :
    (rgetattr o "a.b.c"
        = ((getattrOpt o "a").bind fun x => getattrOpt x "b").bind
            fun x => getattrOpt x "c")
      ∧ rgetattr o' "a.b.c" = some v := by
  constructor
  · rfl
  · have h' : updateAtSegs o ["a", "b"] "c" v = some o' := h
    exact updateAtSegs_rgetattr ["a", "b"] o o' "c" v h'

theorem rgetattr_rsetattr_path_witness :
    rsetattr
        (PyObj.obj 0 [("a", PyObj.obj 1 [("b", PyObj.obj 2 [("c", PyObj.obj 3 [])])])])
        "a.b.c" (PyObj.obj 9 [])
      = some (PyObj.obj 0
          [("a", PyObj.obj 1 [("b", PyObj.obj 2 [("c", PyObj.obj 9 [])])])])
      ∧ ((rgetattr
            (PyObj.obj 0
              [("a", PyObj.obj 1 [("b", PyObj.obj 2 [("c", PyObj.obj 3 [])])])])
            "a.b.c"
          = ((getattrOpt
                (PyObj.obj 0
                  [("a", PyObj.obj 1 [("b", PyObj.obj 2 [("c", PyObj.obj 3 [])])])])
                "a").bind fun x => getattrOpt x "b").bind fun x => getattrOpt x "c")
        ∧ rgetattr
            (PyObj.obj 0
              [("a", PyObj.obj 1 [("b", PyObj.obj 2 [("c", PyObj.obj 9 [])])])])
            "a.b.c"
          = some (PyObj.obj 9 [])) :=
  ⟨rfl,
    rgetattr_rsetattr_path
      (PyObj.obj 0 [("a", PyObj.obj 1 [("b", PyObj.obj 2 [("c", PyObj.obj 3 [])])])])
      (PyObj.obj 9 [])
      (PyObj.obj 0 [("a", PyObj.obj 1 [("b", PyObj.obj 2 [("c", PyObj.obj 9 [])])])])
      rfl⟩

/-- The claim "rgetattr called with a default returns that default
whenever any segment fails" is false as stated: with a default object
that itself exposes a later segment, the fold continues from the
default and can step into it.  Here `obj` has no attribute `a`, yet
`rgetattr(obj, "a.b", d)` with `d` owning an attribute `b` returns
`d.b`, not `d`. -/
theorem rgetattr_default_counterexample :
    rgetattr (PyObj.obj 0 []) "a.b" = none
      ∧ rgetattrD (PyObj.obj 0 []) "a.b" (PyObj.obj 0 [("b", PyObj.obj 7 [])])
          ≠ PyObj.obj 0 [("b", PyObj.obj 7 [])] := by
  refine ⟨rfl, ?_⟩
  intro hc
  exact absurd (congrArg PyObj.payload hc) (by decide)

lemma foldl_getattrD_default (d : PyObj) (hd : d.fields = []) :
    ∀ segs : List String,
      segs.foldl (fun acc a => getattrD acc a d) d = d := by
  intro segs
  induction segs with
  | nil => rfl
  | cons a rest ih =>
    have hstep : getattrD d a d = d := by
      simp [getattrD, getattrOpt, hd, lookupField]
    simp only [List.foldl_cons, hstep]
    exact ih

lemma foldl_getattrD_of_fail (d : PyObj) (hd : d.fields = []) :
    ∀ (segs : List String) (o : PyObj),
      rgetattrSegs (some o) segs = none →
      segs.foldl (fun acc a => getattrD acc a d) o = d := by
  intro segs
  induction segs with
  | nil => intro o h; cases h
  | cons a rest ih =>
    intro o h
    cases hga : getattrOpt o a with
    | none =>
      have hstep : getattrD o a d = d := by simp [getattrD, hga]
      simp only [List.foldl_cons, hstep]
      exact foldl_getattrD_default d hd rest
    | some child =>
      have hstep : getattrD o a d = child := by simp [getattrD, hga]
      have hrest : rgetattrSegs (some child) rest = none := by
        rw [rgetattrSegs_cons] at h
        simpa [hga] using h
      simp only [List.foldl_cons, hstep]
      exact ih child hrest

lemma updateAtSegs_of_fail :
    ∀ (segs : List String) (o : PyObj) (post : String) (v : PyObj),
      rgetattrSegs (some o) segs = none →
      updateAtSegs o segs post v = none := by
  intro segs
  induction segs with
  | nil => intro o post v h; cases h
  | cons a rest ih =>
    intro o post v h
    cases hga : getattrOpt o a with
    | none => simp [updateAtSegs, hga]
    | some child =>
      have hrest : rgetattrSegs (some child) rest = none := by
        rw [rgetattrSegs_cons] at h
        simpa [hga] using h
      simp [updateAtSegs, hga, ih child post v hrest]

/-- C7 (amended): when a segment of the path fails to resolve,
`rgetattr` with a default raises no error and — provided the default
itself exposes none of the remaining segments, e.g. has no attributes
at all — returns that default; `rsetattr` on a path whose intermediate
part fails to resolve propagates the attribute error (`none`). -/
theorem rgetattr_default_vs_rsetattr (o d v : PyObj) (attr : String)
    (hd : d.fields = [])
    (hfail : rgetattr o attr = none)
    (hpre : (rpartitionDot attr).1 ≠ "")
    (hprefail : rgetattr o (rpartitionDot attr).1 = none) :
    rgetattrD o attr d = d ∧ rsetattr o attr v = none := by
  constructor
  · exact foldl_getattrD_of_fail d hd (splitDot attr) o hfail
  · show (if (rpartitionDot attr).1 = ""
        then some (setattrF o (rpartitionDot attr).2 v)
        else updateAtSegs o (splitDot (rpartitionDot attr).1)
              (rpartitionDot attr).2 v) = none
    rw [if_neg hpre]
    exact updateAtSegs_of_fail (splitDot (rpartitionDot attr).1) o
      (rpartitionDot attr).2 v hprefail

theorem rgetattr_default_vs_rsetattr_witness :
    (PyObj.obj 5 []).fields = []
      ∧ rgetattr (PyObj.obj 0 []) "a.b" = none
      ∧ (rpartitionDot "a.b").1 ≠ ""
      ∧ rgetattr (PyObj.obj 0 []) (rpartitionDot "a.b").1 = none
      ∧ (rgetattrD (PyObj.obj 0 []) "a.b" (PyObj.obj 5 []) = PyObj.obj 5 []
        ∧ rsetattr (PyObj.obj 0 []) "a.b" (PyObj.obj 9 []) = none) :=
  ⟨rfl, rfl, by decide, rfl,
    rgetattr_default_vs_rsetattr (PyObj.obj 0 []) (PyObj.obj 5 [])
      (PyObj.obj 9 []) "a.b" rfl rfl (by decide) rfl⟩

/-- Side effects of the timing and logging helpers, in order. -/
inductive SideEv where
  | cudaSync : SideEv
  | consoleOut (s : String) : SideEv
  | logWrite (s : String) : SideEv
  | logFlush : SideEv

/-- `print_log(print_str, log, same_line, display)`: optionally prints
to the console (`print` appends a newline unless `same_line` passes
`end=''`), writes the string (with a newline unless `same_line`) to the
log file and flushes it. -/
def print_log (print_str : String) (same_line display : Bool) : List SideEv :=
  (if display then
      if same_line then [SideEv.consoleOut print_str]
      else [SideEv.consoleOut (print_str ++ "\n")]
    else [])
    ++ (if same_line then [SideEv.logWrite print_str]
        else [SideEv.logWrite (print_str ++ "\n")])
    ++ [SideEv.logFlush]

/-- `tic(timer)`: with the timer enabled it synchronises the device and
returns the current timestamp `time.time()` (the explicit input `now`);
otherwise it returns the initial `start_time = None`. -/
def tic (now : ℝ) (timer : Bool) : List SideEv × Option ℝ :=
  if timer then ([SideEv.cudaSync], some now) else ([], none)

/-- `toc(start_time, name, timer, log)`: with the timer enabled it
synchronises, computes `elapsed_ms = (end_time - start_time) * 1000`,
renders `print_str` (the f-string `f"{name:30s} EP: {elapsed_ms:.2f} ms"`,
abstracted as the formatting function `fmtMsg`), then either delegates
to `print_log(print_str, log, display=False)` or prints, and returns
the elapsed milliseconds; with the timer disabled it returns `None`. -/
def toc (now start_time : ℝ) (fmtMsg : String → ℝ → String) (name : String)
    (timer hasLog : Bool) : List SideEv × Option ℝ :=
  if timer then
    let elapsed_ms := (now - start_time) * 1000
    let print_str := fmtMsg name elapsed_ms
    if hasLog then
      ([SideEv.cudaSync] ++ print_log print_str false false, some elapsed_ms)
    else
      ([SideEv.cudaSync, SideEv.consoleOut (print_str ++ "\n")], some elapsed_ms)
  else ([], none)

/-- C8: with the timer disabled both `tic` and `toc` return `None` and
perform no side effect at all — no device synchronisation, no printing,
no log write. -/
theorem tic_toc_timer_disabled (now start_time : ℝ)
    (fmtMsg : String → ℝ → String) (name : String) (hasLog : Bool) :
    tic now false = ([], none)
      ∧ toc now start_time fmtMsg name false hasLog = ([], none) :=
  ⟨rfl, rfl⟩

/-- A Python context manager over an exception type `ε`: the value
`__enter__` returns (`none` is Python's `None`) and the Boolean
`__exit__` returns given the pending exception (`none` when the body
completed normally). -/
structure ContextMgr (ε : Type) where
  enter : Option ℤ
  exit : Option ε → Bool

/-- `dummy_context_mgr`: `__enter__` returns `None`, `__exit__` returns
`False`. -/
def dummy_context_mgr {ε : Type} : ContextMgr ε :=
  { enter := none, exit := fun _ => false }

/-- Model of the external `torch.no_grad()` context manager: its
`__enter__` also returns `None` and its `__exit__` also returns
`False`. -/
def no_grad {ε : Type} : ContextMgr ε :=
  { enter := none, exit := fun _ => false }

/-- `maybe_no_grad(no_grad)`: `torch.no_grad()` when the flag is true,
the dummy context otherwise. -/
def maybe_no_grad {ε : Type} (ng : Bool) : ContextMgr ε :=
  if ng then no_grad else dummy_context_mgr

/-- `with c: body` where the body either returns a value or raises: a
raised exception is suppressed (the statement completes with no value)
exactly when `__exit__` returns `True`; otherwise it propagates. -/
def runWith {ε α : Type} (c : ContextMgr ε) (body : Except ε α) :
    Except ε (Option α) :=
  match body with
  | .ok a => .ok (some a)
  | .error e => if c.exit (some e) then .ok none else .error e

/-- C10: the inert scope `maybe_no_grad(False)` never suppresses
exceptions: its enter operation returns nothing, its exit operation
always returns `False`, and any error raised inside the scope
propagates to the caller unchanged. -/
theorem maybe_no_grad_false_inert {ε α : Type} (e : ε) :
    (maybe_no_grad false : ContextMgr ε).enter = none
      ∧ (∀ exc : Option ε, (maybe_no_grad false : ContextMgr ε).exit exc = false)
      ∧ runWith (maybe_no_grad false) (Except.error e : Except ε α)
          = Except.error e :=
  ⟨rfl, fun _ => rfl, rfl⟩

end TorchUtils
